import Mathlib

/-!
Verification of the reconciliation core of the obsidian-native-todoist plugin.

The embedding follows the source files:
* `src/state.ts` — class `State` with `nextRetryDelay`;
* `src/todo.ts`  — `extractTodoistId`, `updateState`, `syncState`,
  `savePendingSyncs`, `restorePendingSyncs`, and the metadata-cache
  change handler that creates new Todoist tasks from `#todoist` lines.

Strings that the string-processing code manipulates are embedded as
`List Char`; the remote Todoist service is embedded as an explicit
per-attempt outcome (`FetchResult`) fed to `syncState`, and the
observable effects of one attempt (mutating remote calls, the scheduled
retry delay, whether an exception escaped) are collected in `SyncResult`.
-/

namespace Todoist

/-- Embeds class `State` of `src/state.ts`: the per-task reconciliation
state.  The constructor leaves `synced = false` and `retryAttempts = 0`. -/
structure State where
  todoistId : String
  checkboxState : Bool
  synced : Bool
  retryAttempts : Nat
deriving DecidableEq, Repr

/-- Constructor call `new State(todoistId, checkboxState)` of the source;
the field initializers give `synced = false` and `retryAttempts = 0`. -/
def State.new (todoistId : String) (checkboxState : Bool) : State :=
  { todoistId := todoistId, checkboxState := checkboxState,
    synced := false, retryAttempts := 0 }

/-- Embeds `State.nextRetryDelay`:
`Math.min(base * Math.pow(2, this.retryAttempts), cap)` with
`base = 5_000` and `cap = 5 * 60_000`, in milliseconds. -/
def State.nextRetryDelay (s : State) : Nat :=
  let base := 5000
  let cap := 5 * 60000
  min (base * 2 ^ s.retryAttempts) cap

/-- The outcome of the remote contact made during one `syncState` attempt:
either some remote call threw (the `catch` branch runs), or `getTask`
reported the task gone, or `getTask` returned a task with the given
completion status (truthiness of `completedAt`) and the mutating calls,
if any, succeeded. -/
inductive FetchResult where
  | throws
  | notFound
  | found (completedAt : Bool)
deriving DecidableEq, Repr

/-- A mutating remote call issued by `syncState`. -/
inductive RemoteCall where
  | close (id : String)
  | reopen (id : String)
deriving DecidableEq, Repr

/-- Observable result of one `syncState` attempt: the state after the
attempt, the mutating remote calls issued, the delay of the retry
scheduled via `window.setTimeout` (`none` when no retry is scheduled),
and whether an exception escaped the function (never: the unconditional
`catch` swallows every error). -/
structure SyncResult where
  state : State
  calls : List RemoteCall
  retryDelay : Option Nat
  threw : Bool
deriving DecidableEq, Repr

/-- Embeds `syncState` of `src/todo.ts` (lines 140–159).  On `notFound`
the function returns early, leaving the state untouched.  On a found
task it closes/reopens as needed and sets `synced = true`,
`retryAttempts = 0`.  In the `catch` branch it increments
`retryAttempts`, computes `nextRetryDelay()` on the incremented state,
and schedules a retry after that delay. -/
def syncState (state : State) (fetch : FetchResult) : SyncResult :=
  match fetch with
  | .notFound =>
    { state := state, calls := [], retryDelay := none, threw := false }
  | .found completedAt =>
    let calls :=
      if state.checkboxState && !completedAt then [RemoteCall.close state.todoistId]
      else if !state.checkboxState && completedAt then [RemoteCall.reopen state.todoistId]
      else []
    { state := { state with synced := true, retryAttempts := 0 },
      calls := calls, retryDelay := none, threw := false }
  | .throws =>
    let state1 := { state with retryAttempts := state.retryAttempts + 1 }
    { state := state1, calls := [], retryDelay := some state1.nextRetryDelay,
      threw := false }

/-- Runs a chain of `syncState` attempts, each retry operating on the
state left by the previous attempt, and records the result of every
attempt. -/
def runSync : State → List FetchResult → List SyncResult
  | _, [] => []
  | s, f :: fs =>
    let r := syncState s f
    r :: runSync r.state fs

/-- Embeds interface `PersistedSyncEntry` of `src/todo.ts`. -/
structure PersistedSyncEntry where
  todoistId : String
  checkboxState : Bool
  retryAttempts : Nat
deriving DecidableEq, Repr

/-- The projection applied by `savePendingSyncs` to each unsynced state. -/
def State.toEntry (s : State) : PersistedSyncEntry :=
  { todoistId := s.todoistId, checkboxState := s.checkboxState,
    retryAttempts := s.retryAttempts }

/-- Embeds `savePendingSyncs`: filters `Object.values(this.taskStates)`
to the states with `!s.synced` and maps them to persisted entries. -/
def savePendingSyncs (store : List State) : List PersistedSyncEntry :=
  (store.filter (fun s => !s.synced)).map State.toEntry

/-- The state rebuilt by `restorePendingSyncs` from one persisted entry:
`new State(entry.todoistId, entry.checkboxState)` followed by
`state.synced = false; state.retryAttempts = entry.retryAttempts`. -/
def restoreEntry (e : PersistedSyncEntry) : State :=
  { todoistId := e.todoistId, checkboxState := e.checkboxState,
    synced := false, retryAttempts := e.retryAttempts }

/-- Embeds the store-population part of `restorePendingSyncs`: each
persisted entry is rebuilt with `restoreEntry` and put into
`this.taskStates` (a sync attempt is then launched for each; the
attempts themselves are covered by `syncState`). -/
def restorePendingSyncs (entries : List PersistedSyncEntry) : List State :=
  entries.map restoreEntry

/-- Lookup in the `taskStates` record: `this.taskStates[todoistId]`. -/
def lookup (store : List State) (id : String) : Option State :=
  store.find? (fun s => s.todoistId == id)

/-- Record assignment `this.taskStates[id] = s` (also models the in-place
mutation of a state object already held by the record): replaces the
entries carrying `s.todoistId`, or appends `s` when the key is new. -/
def setEntry (store : List State) (s : State) : List State :=
  if store.any (fun t => t.todoistId == s.todoistId) then
    store.map (fun t => if t.todoistId == s.todoistId then s else t)
  else store ++ [s]

/-- Result of `updateState`: the store after the call, and the id of the
state `syncState` is invoked on, when it is. -/
structure UpdateResult where
  store : List State
  toSync : Option String
deriving DecidableEq, Repr

/-- Embeds `updateState` of `src/todo.ts` (lines 121–137).  A first
sighting inserts an already-synced baseline entry and returns without
syncing; a changed checkbox value rewrites the entry with
`synced = false, retryAttempts = 0`; `syncState` is invoked exactly when
the (possibly updated) entry is unsynced. -/
def updateState (store : List State) (todoistId : String) (checkboxState : Bool) :
    UpdateResult :=
  match lookup store todoistId with
  | none =>
    let s := { State.new todoistId checkboxState with synced := true }
    { store := setEntry store s, toSync := none }
  | some state =>
    let state1 :=
      if state.checkboxState != checkboxState then
        { state with
          checkboxState := checkboxState
          synced := false
          retryAttempts := 0 }
      else state
    if state1.synced then { store := setEntry store state1, toSync := none }
    else { store := setEntry store state1, toSync := some todoistId }

/-- One `syncState` attempt applied to the store: the state object the
attempt mutates is the one held by `taskStates[id]`. -/
def applySync (store : List State) (id : String) (f : FetchResult) : List State :=
  match lookup store id with
  | none => store
  | some s => setEntry store (syncState s f).state

/-- The stores reachable from the empty `taskStates = {}` through the
operations of the plugin: `updateState` observations, `syncState`
attempts (only ever launched on unsynced states — `updateState` returns
early when `state.synced`, the retry timer re-checks `!state.synced`,
and `restorePendingSyncs` sets `synced = false` before syncing), and
restoration of persisted entries. -/
inductive Reachable : List State → Prop where
  | empty : Reachable []
  | update {store : List State} (id : String) (cb : Bool) :
      Reachable store → Reachable (updateState store id cb).store
  | sync {store : List State} {s : State} (id : String) (f : FetchResult) :
      Reachable store → lookup store id = some s → s.synced = false →
      Reachable (applySync store id f)
  | restore {store : List State} (entries : List PersistedSyncEntry) :
      Reachable store →
      Reachable (entries.foldl (fun st e => setEntry st (restoreEntry e)) store)

/-- The invariant of claim C8: a synced entry carries no pending backoff. -/
def Inv (store : List State) : Prop :=
  ∀ s ∈ store, s.synced = true → s.retryAttempts = 0

/-! String processing of the change detector (`src/todo.ts`)

Lines of document text are embedded as `List Char`.  `splitFirst`
locates the first occurrence of a pattern, giving the semantics both of
JavaScript `String.prototype.replace` with a string argument (which
replaces only the first occurrence) and of `String.prototype.contains`
(includes). -/

/-- Splits `s` around the first occurrence of `pat`:
`some (a, b)` with `s = a ++ pat ++ b` and `a` shortest, `none` when
`pat` does not occur in `s`. -/
def splitFirst (pat : List Char) : List Char → Option (List Char × List Char)
  | [] => if pat = [] then some ([], []) else none
  | c :: t =>
    if pat.isPrefixOf (c :: t) then some ([], (c :: t).drop pat.length)
    else (splitFirst pat t).map (fun p => (c :: p.1, p.2))

/-- JavaScript `s.includes(pat)`, which Obsidian exposes as `String.contains`. -/
def containsSub (s pat : List Char) : Bool :=
  (splitFirst pat s).isSome

/-- JavaScript `s.replace(pat, rep)` with a string pattern: replaces only
the first occurrence, and returns `s` unchanged when `pat` is absent. -/
def replaceFirst (s pat rep : List Char) : List Char :=
  match splitFirst pat s with
  | none => s
  | some (a, b) => a ++ rep ++ b

/-- JavaScript `String.prototype.trim`. -/
def trim (s : List Char) : List Char :=
  ((s.dropWhile Char.isWhitespace).reverse.dropWhile Char.isWhitespace).reverse

/-- JavaScript `parts.join(sep)`. -/
def joinSep (sep : List Char) : List (List Char) → List Char
  | [] => []
  | [x] => x
  | x :: y :: rest => x ++ sep ++ joinSep sep (y :: rest)

/-- The literal tag token `#todoist` marking a line for task creation. -/
def todoistTag : List Char := "#todoist".data

/-- The literal unchecked-checkbox syntax stripped from a new line. -/
def checkboxMarker : List Char := "- [ ]".data

/-- The content sent to `this.todoist.addTask` for a new `#todoist` line:
the line with the first occurrence of the checkbox syntax and the first
occurrence of the tag removed, then trimmed. -/
def newTaskContent (line : List Char) : List Char :=
  trim (replaceFirst (replaceFirst line checkboxMarker []) todoistTag [])

/-- The derived label tags:
each label is prefixed with `#todoist/` and the results are joined with a
single space. -/
def derivedLabels (labels : List (List Char)) : List Char :=
  joinSep [' '] (labels.map (fun l => todoistTag ++ '/' :: l))

/-- The rewritten line written back into the document:
the first occurrence of the tag is replaced by the project-derived tag,
then the joined label tags and the id marker ` (*<todoistId>*)` are
appended. -/
def newTaskLine (line projectName newId : List Char) (labels : List (List Char)) :
    List Char :=
  replaceFirst line todoistTag (todoistTag ++ '/' :: projectName) ++
    derivedLabels labels ++ (' ' :: '(' :: '*' :: (newId ++ ['*', ')']))

/-! Id extraction (`src/todo.ts`, lines 29–32)

`TODOIST_ID_REGEX = /\(\*([a-zA-Z0-9]+)\*\)/` and
`line.match(...)?.[1] ?? null`.  JavaScript regex matching scans the
positions of the line left to right and succeeds at the first position
where the whole pattern matches.  At a given position the greedy group
`[a-zA-Z0-9]+` must end exactly at the maximal alphanumeric run: any
shorter prefix of the run is followed by an alphanumeric character,
never by the required `*`.  So matching at a position amounts to: the
position starts with `(*`, followed by a nonempty maximal alphanumeric
run, followed by `*)`. -/

/-- The regex match attempted at the head of `s`: `some run` when `s`
starts with `(*<run>*)` for a nonempty alphanumeric `run`. -/
def markerAt : List Char → Option (List Char)
  | '(' :: '*' :: rest =>
    let run := rest.takeWhile Char.isAlphanum
    match rest.drop run.length with
    | '*' :: ')' :: _ => if run = [] then none else some run
    | _ => none
  | _ => none

/-- Embeds `extractTodoistId`: the captured group of the first (leftmost)
match of `TODOIST_ID_REGEX` in the line, or `none`. -/
def extractTodoistId : List Char → Option (List Char)
  | [] => none
  | c :: t =>
    match markerAt (c :: t) with
    | some r => some r
    | none => extractTodoistId t

/-- The full text of a marker carrying id `m`: `(*<m>*)`. -/
def mkMarker (m : List Char) : List Char :=
  '(' :: '*' :: (m ++ ['*', ')'])

/-- A string is a valid marker id when it is nonempty and every character
matches `[a-zA-Z0-9]`. -/
def validId (m : List Char) : Prop :=
  m ≠ [] ∧ m.all Char.isAlphanum = true

instance (m : List Char) : Decidable (validId m) := by
  unfold validId; infer_instance

/-! Helper lemmas about the store operations -/

lemma lookup_mem {store : List State} {id : String} {s : State}
    (h : lookup store id = some s) : s ∈ store :=
  List.mem_of_find?_eq_some h

lemma lookup_id {store : List State} {id : String} {s : State}
    (h : lookup store id = some s) : s.todoistId = id := by
  have h' : store.find? (fun t => t.todoistId == id) = some s := h
  have hp := List.find?_some h'
  simpa using hp

lemma any_of_lookup_some {store : List State} {id : String} {s : State}
    (h : lookup store id = some s) :
    store.any (fun t => t.todoistId == id) = true := by
  have h' : store.find? (fun t => t.todoistId == id) = some s := h
  have hp := List.find?_some h'
  rw [List.any_eq_true]
  exact ⟨s, lookup_mem h, hp⟩

lemma lookup_map_replace {id : String} {s' : State} (hid : s'.todoistId = id) :
    ∀ {store : List State} {s : State}, lookup store id = some s →
      lookup (store.map (fun t => if t.todoistId == s'.todoistId then s' else t)) id =
        some s' := by
  intro store
  induction store with
  | nil => intro s h; simp [lookup] at h
  | cons t ts ih =>
    intro s h
    by_cases ht : t.todoistId = id
    · simp [lookup, hid, ht]
    · have h' : lookup ts id = some s := by
        simpa [lookup, List.find?_cons, ht] using h
      simpa [lookup, hid, ht] using ih h'

lemma lookup_setEntry {store : List State} {id : String} {s s' : State}
    (h : lookup store id = some s) (hid : s'.todoistId = id) :
    lookup (setEntry store s') id = some s' := by
  unfold setEntry
  rw [if_pos (show store.any (fun t => t.todoistId == s'.todoistId) = true by
    rw [hid]; exact any_of_lookup_some h)]
  exact lookup_map_replace hid h

lemma inv_setEntry {store : List State} {s' : State} (hInv : Inv store)
    (hs' : s'.synced = true → s'.retryAttempts = 0) : Inv (setEntry store s') := by
  intro s hs hsync
  unfold setEntry at hs
  by_cases hany : store.any (fun t => t.todoistId == s'.todoistId) = true
  · rw [if_pos hany] at hs
    obtain ⟨t, ht, hEq⟩ := List.mem_map.mp hs
    subst hEq
    by_cases hid : (t.todoistId == s'.todoistId) = true
    · rw [if_pos hid] at hsync ⊢
      exact hs' hsync
    · rw [if_neg hid] at hsync ⊢
      exact hInv t ht hsync
  · rw [if_neg hany] at hs
    rcases List.mem_append.mp hs with hmem | hmem
    · exact hInv s hmem hsync
    · have hseq : s = s' := by simpa using hmem
      subst hseq
      exact hs' hsync

lemma inv_updateState {store : List State} {id : String} {cb : Bool}
    (hInv : Inv store) : Inv (updateState store id cb).store := by
  have hgoal : ∀ s1 : State, (s1.synced = true → s1.retryAttempts = 0) →
      Inv (if s1.synced = true then
            ({ store := setEntry store s1, toSync := none } : UpdateResult)
          else { store := setEntry store s1, toSync := some id }).store := by
    intro s1 h1
    by_cases hc : s1.synced = true
    · rw [if_pos hc]; exact inv_setEntry hInv h1
    · rw [if_neg hc]; exact inv_setEntry hInv h1
  unfold updateState
  cases h : lookup store id with
  | none =>
    exact inv_setEntry hInv (fun _ => rfl)
  | some s =>
    dsimp only
    apply hgoal
    by_cases hcb : (s.checkboxState != cb) = true
    · rw [if_pos hcb]; intro hsync; cases hsync
    · rw [if_neg hcb]; exact hInv s (lookup_mem h)

lemma inv_applySync {store : List State} {id : String} {f : FetchResult} {s : State}
    (hInv : Inv store) (hl : lookup store id = some s) (hs : s.synced = false) :
    Inv (applySync store id f) := by
  unfold applySync
  rw [hl]
  apply inv_setEntry hInv
  intro hsync
  cases f with
  | throws => simp [syncState, hs] at hsync
  | notFound => simp [syncState, hs] at hsync
  | found c => rfl

lemma inv_restoreFold {store : List State} (entries : List PersistedSyncEntry)
    (hInv : Inv store) :
    Inv (entries.foldl (fun st e => setEntry st (restoreEntry e)) store) := by
  induction entries generalizing store with
  | nil => exact hInv
  | cons e es ih =>
    simp only [List.foldl_cons]
    exact ih (inv_setEntry hInv (by intro hsync; simp [restoreEntry] at hsync))

/-! Claims about the retry policy and the sync engine -/

/-- Claim C3: for every non-negative retry count `n`, `nextRetryDelay`
returns exactly `min(5000 * 2^n, 300000)` milliseconds, deterministically
and without side effects (it is a pure function of the state). -/
theorem c3_nextRetryDelay (id : String) (cb sy : Bool) (n : Nat) :
    State.nextRetryDelay
        { todoistId := id, checkboxState := cb, synced := sy, retryAttempts := n } =
      min (5000 * 2 ^ n) 300000 := rfl

/-- Claim C1 (counterexample): a tracked task whose sync fails three times
before succeeding does not see the delays 5000 ms, 10000 ms, 20000 ms —
`syncState` increments `retryAttempts` before computing the delay, so the
first scheduled delay is already 10000 ms. -/
theorem c1_counterexample :
    (runSync (State.new "123" true) [.throws, .throws, .throws, .found false]).map
        (fun r => r.retryDelay) ≠
      [some 5000, some 10000, some 20000, none] := by decide

/-- Claim C1 (amended): when the sync attempt of a tracked task fails three
consecutive times and then succeeds, `retryAttempts` takes the value
sequence 1, 2, 3, then 0, and the delays scheduled before each retry are
10000 ms, 20000 ms, and 40000 ms before the final success. -/
theorem c1_retry_sequence (s : State) (c : Bool) (h : s.retryAttempts = 0) :
    (runSync s [.throws, .throws, .throws, .found c]).map
        (fun r => r.state.retryAttempts) = [1, 2, 3, 0] ∧
    (runSync s [.throws, .throws, .throws, .found c]).map
        (fun r => r.retryDelay) = [some 10000, some 20000, some 40000, none] := by
  obtain ⟨id, cb, sy, n⟩ := s
  simp only at h
  subst h
  constructor
  · norm_num [runSync, syncState]
  · norm_num [runSync, syncState, State.nextRetryDelay]

theorem c1_retry_sequence_witness :
    (runSync (State.new "97" true) [.throws, .throws, .throws, .found true]).map
        (fun r => r.state.retryAttempts) = [1, 2, 3, 0] ∧
    (runSync (State.new "97" true) [.throws, .throws, .throws, .found true]).map
        (fun r => r.retryDelay) = [some 10000, some 20000, some 40000, none] :=
  c1_retry_sequence (State.new "97" true) true rfl

/-- Claim C2 (counterexample): on a deleted remote task `syncState` does
terminate without a mutating call, without scheduling a retry and without
throwing, but it leaves the state unsynced, so the state IS included in
the pending list persisted at shutdown. -/
theorem c2_counterexample :
    (syncState (State.new "a" true) .notFound).calls = [] ∧
    (syncState (State.new "a" true) .notFound).retryDelay = none ∧
    (syncState (State.new "a" true) .notFound).threw = false ∧
    savePendingSyncs [(syncState (State.new "a" true) .notFound).state] ≠ [] := by
  refine ⟨rfl, rfl, rfl, ?_⟩
  decide

/-- Claim C2 (amended): when the remote task no longer exists,
`syncState` terminates without issuing any mutating remote call, without
scheduling a further retry, and without throwing; it leaves the state
unchanged (hence still unsynced), so the state is included in the
persisted pending list written at shutdown. -/
theorem c2_deleted_remote (s : State) (h : s.synced = false) :
    (syncState s .notFound).state = s ∧
    (syncState s .notFound).calls = [] ∧
    (syncState s .notFound).retryDelay = none ∧
    (syncState s .notFound).threw = false ∧
    State.toEntry s ∈ savePendingSyncs [(syncState s .notFound).state] := by
  refine ⟨rfl, rfl, rfl, rfl, ?_⟩
  simp [syncState, savePendingSyncs, h]

theorem c2_deleted_remote_witness :
    (syncState (State.mk "b" false false 2) .notFound).state = State.mk "b" false false 2 ∧
    (syncState (State.mk "b" false false 2) .notFound).calls = [] ∧
    (syncState (State.mk "b" false false 2) .notFound).retryDelay = none ∧
    (syncState (State.mk "b" false false 2) .notFound).threw = false ∧
    State.toEntry (State.mk "b" false false 2) ∈
      savePendingSyncs [(syncState (State.mk "b" false false 2) .notFound).state] :=
  c2_deleted_remote (State.mk "b" false false 2) rfl

/-- Claim C4: when the local checkbox already agrees with the remote
completion status of the remote task at fetch time, `syncState` performs zero
mutating remote calls and ends with `synced = true`, `retryAttempts = 0`. -/
theorem c4_consistent_noop (s : State) (c : Bool) (h : s.checkboxState = c) :
    (syncState s (.found c)).calls = [] ∧
    (syncState s (.found c)).state.synced = true ∧
    (syncState s (.found c)).state.retryAttempts = 0 := by
  refine ⟨?_, rfl, rfl⟩
  cases hc : s.checkboxState <;> simp [syncState, ← h, hc]

theorem c4_consistent_noop_witness :
    (syncState (State.mk "a" true false 1) (.found true)).calls = [] ∧
    (syncState (State.mk "a" true false 1) (.found true)).state.synced = true ∧
    (syncState (State.mk "a" true false 1) (.found true)).state.retryAttempts = 0 :=
  c4_consistent_noop (State.mk "a" true false 1) true rfl

/-- Claim C5: restoring the snapshot of a store reproduces, for every
unsynced entry, an entry with the same `taskId`, `checkboxState` and
`retryAttempts`, and every snapshot entry stems from an unsynced state
(synced entries are never included). -/
theorem c5_round_trip (store : List State) :
    (∀ s ∈ store, s.synced = false →
      ∃ s' ∈ restorePendingSyncs (savePendingSyncs store),
        s'.todoistId = s.todoistId ∧ s'.checkboxState = s.checkboxState ∧
          s'.retryAttempts = s.retryAttempts) ∧
    (∀ e ∈ savePendingSyncs store,
      ∃ s ∈ store, s.synced = false ∧ e = State.toEntry s) := by
  constructor
  · intro s hs hsync
    refine ⟨restoreEntry (State.toEntry s), ?_, rfl, rfl, rfl⟩
    simp only [restorePendingSyncs, savePendingSyncs, List.mem_map, List.map_map]
    exact ⟨s, by simp [List.mem_filter, hs, hsync], rfl⟩
  · intro e he
    simp only [savePendingSyncs, List.mem_map, List.mem_filter] at he
    obtain ⟨s, ⟨hs, hsync⟩, hEq⟩ := he
    exact ⟨s, hs, by simpa using hsync, hEq.symm⟩

theorem c5_round_trip_witness :
    ∃ s' ∈ restorePendingSyncs (savePendingSyncs [State.mk "a" true false 2]),
      s'.todoistId = "a" ∧ s'.checkboxState = true ∧ s'.retryAttempts = 2 :=
  (c5_round_trip [State.mk "a" true false 2]).1 (State.mk "a" true false 2)
    (by simp) rfl

/-! Claims about `updateState` -/

/-- Claim C6: observing a task id not present in the store inserts a new
entry with the observed `checkboxState`, `synced = true` and
`retryAttempts = 0`, and triggers no sync attempt (hence no remote call:
`updateState` itself contacts the remote service only through
`syncState`). -/
theorem c6_first_observation (store : List State) (id : String) (cb : Bool)
    (h : lookup store id = none) :
    (updateState store id cb).store =
      store ++ [State.mk id cb true 0] ∧
    (updateState store id cb).toSync = none := by
  have hany : store.any (fun t => t.todoistId == id) = false := by
    rw [List.any_eq_false]
    have h' : store.find? (fun t => t.todoistId == id) = none := h
    exact List.find?_eq_none.mp h'
  unfold updateState
  rw [h]
  unfold setEntry
  rw [State.new]
  constructor
  · dsimp only
    rw [if_neg (by rw [hany]; exact Bool.false_ne_true)]
  · rfl

theorem c6_first_observation_witness :
    (updateState [] "123" true).store = [State.mk "123" true true 0] ∧
    (updateState [] "123" true).toSync = none :=
  c6_first_observation [] "123" true rfl

/-- Claim C7: observing an existing entry with a checkbox value different
from the stored one rewrites the entry to the new value with
`synced = false` and `retryAttempts = 0`, and triggers a sync attempt for
that id. -/
theorem c7_changed_observation (store : List State) (id : String) (cb : Bool)
    (s : State) (h : lookup store id = some s) (hne : s.checkboxState ≠ cb) :
    lookup (updateState store id cb).store id =
      some (State.mk s.todoistId cb false 0) ∧
    (updateState store id cb).toSync = some id := by
  have hbne : (s.checkboxState != cb) = true := bne_iff_ne.mpr hne
  unfold updateState
  rw [h]
  dsimp only
  rw [if_pos hbne]
  constructor
  · have hid2 : s.todoistId = id := lookup_id h
    exact lookup_setEntry h
      (show (State.mk s.todoistId cb false 0).todoistId = id from hid2)
  · rfl

theorem c7_changed_observation_witness :
    lookup (updateState [State.mk "a" false true 0] "a" true).store "a" =
      some (State.mk "a" true false 0) ∧
    (updateState [State.mk "a" false true 0] "a" true).toSync = some "a" :=
  c7_changed_observation [State.mk "a" false true 0] "a" true
    (State.mk "a" false true 0) (by decide) (by decide)

/-- Claim C8: in every store reachable from the empty store through
`updateState` observations, `syncState` attempt outcomes and restoration
of persisted entries, every entry with `synced = true` has
`retryAttempts = 0`. -/
theorem c8_synced_invariant (store : List State) (h : Reachable store) :
    Inv store := by
  induction h with
  | empty => intro s hs; simp at hs
  | update id cb _ ih => exact inv_updateState ih
  | sync id f _ hl hsync ih => exact inv_applySync ih hl hsync
  | restore entries _ ih => exact inv_restoreFold entries ih

theorem c8_synced_invariant_witness :
    Inv (updateState [] "a" true).store :=
  c8_synced_invariant (updateState [] "a" true).store
    (Reachable.update "a" true Reachable.empty)

/-! Helper lemmas about `splitFirst` and `joinSep` -/

lemma splitFirst_eq {pat : List Char} :
    ∀ {s a b : List Char}, splitFirst pat s = some (a, b) → s = a ++ pat ++ b := by
  intro s
  induction s with
  | nil =>
    intro a b h
    rw [splitFirst] at h
    by_cases hp : pat = []
    · rw [if_pos hp] at h
      simp only [Option.some.injEq, Prod.mk.injEq] at h
      obtain ⟨h1, h2⟩ := h
      subst h1
      subst h2
      simp [hp]
    · rw [if_neg hp] at h
      cases h
  | cons c t ih =>
    intro a b h
    rw [splitFirst] at h
    by_cases hp : pat.isPrefixOf (c :: t) = true
    · rw [if_pos hp] at h
      simp only [Option.some.injEq, Prod.mk.injEq] at h
      obtain ⟨h1, h2⟩ := h
      subst h1
      subst h2
      have hpre : pat ++ List.drop pat.length (c :: t) = c :: t :=
        List.prefix_iff_eq_append.mp ( List.isPrefixOf_iff_prefix.mp hp)
      simpa using hpre.symm
    · rw [if_neg hp] at h
      cases hsp : splitFirst pat t with
      | none => rw [hsp] at h; cases h
      | some p =>
        rw [hsp] at h
        obtain ⟨a', b'⟩ := p
        simp only [Option.map, Option.some.injEq, Prod.mk.injEq] at h
        obtain ⟨h1, h2⟩ := h
        subst h1
        subst h2
        simp [ih hsp]

lemma splitFirst_isSome_mid (pat a b : List Char) :
    (splitFirst pat (a ++ pat ++ b)).isSome = true := by
  induction a with
  | nil =>
    cases pat with
    | nil =>
      cases b with
      | nil => rfl
      | cons c t => simp [splitFirst, List.isPrefixOf]
    | cons p ps =>
      have hp : (p :: ps).isPrefixOf (p :: (ps ++ b)) = true :=
        List.isPrefixOf_iff_prefix.mpr (by simp)
      simp only [List.nil_append, List.cons_append]
      rw [splitFirst, if_pos hp]
      rfl
  | cons c a' ih =>
    simp only [List.cons_append]
    rw [splitFirst]
    by_cases hp : pat.isPrefixOf (c :: (a' ++ pat ++ b)) = true
    · rw [if_pos hp]; rfl
    · rw [if_neg hp]
      simpa using ih

lemma containsSub_mid (pat a b : List Char) :
    containsSub (a ++ pat ++ b) pat = true :=
  splitFirst_isSome_mid pat a b

lemma containsSub_extend {s pat : List Char} (x y : List Char)
    (h : containsSub s pat = true) : containsSub (x ++ s ++ y) pat = true := by
  unfold containsSub at h
  cases hsp : splitFirst pat s with
  | none => rw [hsp] at h; cases h
  | some p =>
    obtain ⟨a, b⟩ := p
    have hs : s = a ++ pat ++ b := splitFirst_eq hsp
    subst hs
    have := containsSub_mid pat (x ++ a) (b ++ y)
    simpa [List.append_assoc] using this

lemma joinSep_mem_parts {sep x : List Char} :
    ∀ {ls : List (List Char)}, x ∈ ls → ∃ a b, joinSep sep ls = a ++ x ++ b := by
  intro ls
  induction ls with
  | nil => intro h; simp at h
  | cons y ys ih =>
    intro h
    rcases List.mem_cons.mp h with rfl | hmem
    · cases ys with
      | nil => exact ⟨[], [], by simp [joinSep]⟩
      | cons z rest => exact ⟨[], sep ++ joinSep sep (z :: rest), by simp [joinSep]⟩
    · have hys : ys ≠ [] := List.ne_nil_of_mem hmem
      obtain ⟨z, rest, rfl⟩ := List.exists_cons_of_ne_nil hys
      obtain ⟨a, b, hab⟩ := ih hmem
      exact ⟨y ++ sep ++ a, b, by simp [joinSep, hab, List.append_assoc]⟩

/-! Claims about the change detector -/

/-- Claim C9 (counterexample): on the line `- [ ] Buy milk #todoist`
(which carries the tracked tag and no id marker) the rewritten line still
contains the tag token `#todoist` verbatim — the tag is only rewritten to
`#todoist/<projectName>`, of which it remains a prefix. -/
theorem c9_counterexample :
    extractTodoistId "- [ ] Buy milk #todoist".data = none ∧
    containsSub "- [ ] Buy milk #todoist".data todoistTag = true ∧
    containsSub
        (newTaskLine "- [ ] Buy milk #todoist".data "Inbox".data "abc123".data [])
        todoistTag = true := by
  refine ⟨by decide, by decide, by decide⟩

/-- Claim C9 (amended): for every checklist line carrying the tracked tag
`#todoist` and no id marker, the change detector creates a remote task
from the stripped line content (`newTaskContent`), and the rewritten line
carries the appended ` (*<newId>*)` marker and the project- and
label-derived tags; the first occurrence of the tag token is rewritten
into the project-derived tag `#todoist/<projectName>` (so the tag text
may remain as its prefix, rather than disappearing from the line). -/
theorem c9_new_task_line (line projectName newId : List Char)
    (labels : List (List Char)) (h : containsSub line todoistTag = true) :
    newTaskContent line =
      trim (replaceFirst (replaceFirst line checkboxMarker []) todoistTag []) ∧
    (∃ pre, newTaskLine line projectName newId labels =
      pre ++ (' ' :: '(' :: '*' :: (newId ++ ['*', ')']))) ∧
    containsSub (newTaskLine line projectName newId labels)
      (todoistTag ++ '/' :: projectName) = true ∧
    ∀ l ∈ labels, containsSub (newTaskLine line projectName newId labels)
      (todoistTag ++ '/' :: l) = true := by
  refine ⟨rfl, ?_, ?_, ?_⟩
  · exact ⟨replaceFirst line todoistTag (todoistTag ++ '/' :: projectName) ++
      derivedLabels labels, by simp [newTaskLine, List.append_assoc]⟩
  · unfold containsSub at h
    cases hsp : splitFirst todoistTag line with
    | none => rw [hsp] at h; cases h
    | some p =>
      obtain ⟨a, b⟩ := p
      have hline : line = a ++ todoistTag ++ b := splitFirst_eq hsp
      unfold newTaskLine replaceFirst
      rw [hsp]
      have := containsSub_mid (todoistTag ++ '/' :: projectName) a
        (b ++ (derivedLabels labels ++ (' ' :: '(' :: '*' :: (newId ++ ['*', ')']))))
      simpa [List.append_assoc] using this
  · intro l hl
    have hmem : (todoistTag ++ '/' :: l) ∈
        labels.map (fun l => todoistTag ++ '/' :: l) :=
      List.mem_map_of_mem _ hl
    obtain ⟨a, b, hab⟩ := joinSep_mem_parts hmem
    unfold newTaskLine derivedLabels
    rw [hab]
    have := containsSub_extend
      (replaceFirst line todoistTag (todoistTag ++ '/' :: projectName) ++ a)
      (b ++ (' ' :: '(' :: '*' :: (newId ++ ['*', ')'])))
      (containsSub_mid (todoistTag ++ '/' :: l) [] [])
    simpa [List.append_assoc] using this

theorem c9_new_task_line_witness :
    newTaskContent "- [ ] Buy milk #todoist".data =
      trim (replaceFirst (replaceFirst "- [ ] Buy milk #todoist".data
        checkboxMarker []) todoistTag []) ∧
    (∃ pre, newTaskLine "- [ ] Buy milk #todoist".data "Inbox".data "abc123".data
        ["home".data] =
      pre ++ (' ' :: '(' :: '*' :: ("abc123".data ++ ['*', ')']))) ∧
    containsSub (newTaskLine "- [ ] Buy milk #todoist".data "Inbox".data
        "abc123".data ["home".data]) (todoistTag ++ '/' :: "Inbox".data) = true ∧
    ∀ l ∈ (["home".data] : List (List Char)),
      containsSub (newTaskLine "- [ ] Buy milk #todoist".data "Inbox".data
        "abc123".data ["home".data]) (todoistTag ++ '/' :: l) = true :=
  c9_new_task_line "- [ ] Buy milk #todoist".data "Inbox".data "abc123".data
    ["home".data] (by decide)

/-! Helper lemmas for id extraction -/

lemma takeWhile_of_all {p : Char → Bool} :
    ∀ {l : List Char}, l.all p = true → l.takeWhile p = l := by
  intro l
  induction l with
  | nil => intro _; rfl
  | cons c t ih =>
    intro h
    simp only [List.all_cons, Bool.and_eq_true] at h
    simp [List.takeWhile_cons, h.1, ih h.2]

lemma takeWhile_append_stop {p : Char → Bool} {r : List Char} (hr : r.all p = true)
    {x : Char} (hx : p x = false) (y : List Char) :
    (r ++ x :: y).takeWhile p = r := by
  simp [List.takeWhile_append, takeWhile_of_all hr, List.takeWhile_cons, hx]

lemma drop_takeWhile_length {p : Char → Bool} :
    ∀ l : List Char, l.drop (l.takeWhile p).length = l.dropWhile p := by
  intro l
  induction l with
  | nil => rfl
  | cons c t ih =>
    by_cases hc : p c = true
    · simp [List.takeWhile_cons, List.dropWhile_cons, hc, ih]
    · simp [List.takeWhile_cons, List.dropWhile_cons, hc]

lemma markerAt_some_iff {s r : List Char} :
    markerAt s = some r ↔ validId r ∧ ∃ b, s = mkMarker r ++ b := by
  constructor
  · intro h
    rw [markerAt.eq_def] at h
    split at h
    case h_2 => cases h
    case h_1 rest =>
      dsimp only at h
      split at h
      case h_2 => cases h
      case h_1 b2 hdrop =>
        by_cases hrun : rest.takeWhile Char.isAlphanum = []
        · rw [if_pos hrun] at h; cases h
        · rw [if_neg hrun] at h
          have hr : rest.takeWhile Char.isAlphanum = r := Option.some.injEq .. ▸ h
          rw [hr] at hdrop
          have hrest : rest = r ++ '*' :: ')' :: b2 := by
            conv_lhs => rw [← List.takeWhile_append_dropWhile Char.isAlphanum rest]
            rw [← drop_takeWhile_length, hr, hdrop]
          exact ⟨⟨hr ▸ hrun, hr ▸ List.all_takeWhile⟩,
            b2, by simp [mkMarker, hrest]⟩
  · rintro ⟨⟨hne, hall⟩, b, rfl⟩
    have hsplit : (mkMarker r ++ b) = '(' :: '*' :: (r ++ '*' :: ')' :: b) := by
      simp [mkMarker]
    have hstep : ∀ rest : List Char, markerAt ('(' :: '*' :: rest) =
        (match rest.drop (rest.takeWhile Char.isAlphanum).length with
          | '*' :: ')' :: _ =>
            if rest.takeWhile Char.isAlphanum = [] then none
            else some (rest.takeWhile Char.isAlphanum)
          | _ => none) := fun rest => rfl
    have hx : Char.isAlphanum '*' = false := by decide
    rw [hsplit, hstep]
    rw [takeWhile_append_stop hall hx]
    rw [List.drop_left]
    simp [hne]

lemma extractTodoistId_some {s r : List Char} (h : extractTodoistId s = some r) :
    validId r ∧ ∃ a b, s = a ++ mkMarker r ++ b ∧
      ∀ a' r' b', validId r' → s = a' ++ mkMarker r' ++ b' →
        a.length ≤ a'.length := by
  induction s with
  | nil => cases h
  | cons c t ih =>
    rw [extractTodoistId] at h
    cases hm : markerAt (c :: t) with
    | some r0 =>
      simp only [hm] at h
      obtain rfl : r0 = r := Option.some.injEq .. ▸ h
      obtain ⟨hv, b, hs⟩ := markerAt_some_iff.mp hm
      refine ⟨hv, [], b, by simpa using hs, ?_⟩
      intro a' r' b' _ _
      exact Nat.zero_le _
    | none =>
      simp only [hm] at h
      obtain ⟨hv, a, b, hs, hmin⟩ := ih h
      refine ⟨hv, c :: a, b, by simp [hs], ?_⟩
      intro a' r' b' hv' heq
      cases a' with
      | nil =>
        exfalso
        have hm' : markerAt (c :: t) = some r' :=
          markerAt_some_iff.mpr ⟨hv', b', by simpa using heq⟩
        rw [hm] at hm'
        cases hm'
      | cons c2 a2 =>
        have heq2 : c :: t = c2 :: (a2 ++ mkMarker r' ++ b') := by simpa using heq
        injection heq2 with h1 ht
        simpa using Nat.succ_le_succ (hmin a2 r' b' hv' ht)

lemma extractTodoistId_none {s : List Char} (h : extractTodoistId s = none) :
    ∀ a r b, validId r → s ≠ a ++ mkMarker r ++ b := by
  induction s with
  | nil =>
    intro a r b hv heq
    exact absurd heq.symm (by simp [mkMarker])
  | cons c t ih =>
    rw [extractTodoistId] at h
    cases hm : markerAt (c :: t) with
    | some r0 => simp only [hm] at h; cases h
    | none =>
      simp only [hm] at h
      intro a r b hv heq
      cases a with
      | nil =>
        have hm' : markerAt (c :: t) = some r :=
          markerAt_some_iff.mpr ⟨hv, b, by simpa using heq⟩
        rw [hm] at hm'
        cases hm'
      | cons c2 a2 =>
        have heq2 : c :: t = c2 :: (a2 ++ mkMarker r ++ b) := by simpa using heq
        injection heq2 with h1 ht
        exact ih h a2 r b hv ht

/-- Claim C10: `extractTodoistId` returns an id exactly when the line
contains a substring `(*s*)` with `s` a nonempty string of ASCII letters
and digits; it returns the id of the first such occurrence anywhere in
the line, and a line with no such occurrence (for instance when every
candidate id contains a character such as a hyphen) yields `none`. -/
theorem c10_extractTodoistId (s : List Char) :
    (∀ r, extractTodoistId s = some r →
      validId r ∧ ∃ a b, s = a ++ mkMarker r ++ b ∧
        ∀ a' r' b', validId r' → s = a' ++ mkMarker r' ++ b' →
          a.length ≤ a'.length) ∧
    (extractTodoistId s = none →
      ∀ a r b, validId r → s ≠ a ++ mkMarker r ++ b) :=
  ⟨fun _ h => extractTodoistId_some h, fun h => extractTodoistId_none h⟩

theorem c10_extractTodoistId_witness :
    validId "abc".data ∧
    ∃ a b, "x (*abc*) y (*zz*)".data = a ++ mkMarker "abc".data ++ b ∧
      ∀ a' r' b', validId r' →
        "x (*abc*) y (*zz*)".data = a' ++ mkMarker r' ++ b' →
          a.length ≤ a'.length :=
  (c10_extractTodoistId "x (*abc*) y (*zz*)".data).1 "abc".data (by decide)

end Todoist
